import Mathlib

/-!
Verification of the grid-traversal planner (src/grid_traversal.c).

The C program is embedded shallowly:
* `Grid` mirrors the C struct (`rows`, `cols`, a blocked predicate on cells);
* `create_grid` mirrors `create_grid` (out-of-bounds blocked coordinates ignored);
* `solve_path` mirrors `solve_path`: row-major start-cell scan, then up to
  `movement_points` steps, each step trying Tier 1 (move to an in-bounds free
  unvisited neighbour, directions up/right/down/left) and then Tier 2 (move to
  an in-bounds free visited neighbour that has an in-bounds free unvisited
  neighbour), stopping early when neither tier moves;
* `generate_blocked` mirrors `generate_blocked`, with the C `rand()` stream
  modelled as an explicit list of sample pairs (rejection sampling truncates
  when the list of samples is exhausted).

Machine integers are modelled as `Int` (no arithmetic here approaches the
`int` overflow range in the scenarios the claims quantify over).
-/

/-- The grid: dimensions plus the blocked-cell predicate (the C `bool **blocked`,
read only at in-bounds coordinates by the planner). -/
structure Grid where
  rows : Int
  cols : Int
  blocked : Int → Int → Bool

/-- The function `create_grid`: all cells start free; each listed coordinate is marked
blocked if it is in bounds, and silently ignored otherwise. -/
def create_grid (rows cols : Int) (blocked_list : List (Int × Int)) : Grid :=
  { rows := rows, cols := cols,
    blocked := fun r c =>
      decide (0 ≤ r ∧ r < rows ∧ 0 ≤ c ∧ c < cols ∧ (r, c) ∈ blocked_list) }

/-- The bounds check `nr >= 0 && nr < rows && nc >= 0 && nc < cols` from the C. -/
def inb (g : Grid) (r c : Int) : Bool :=
  decide (0 ≤ r ∧ r < g.rows ∧ 0 ≤ c ∧ c < g.cols)

/-- All cells of the grid in row-major order (row 0 first, then increasing
column), the order of the start-selection scan in `solve_path`. -/
def cellsRM (g : Grid) : List (Int × Int) :=
  (List.range g.rows.toNat).flatMap fun (i : Nat) =>
    (List.range g.cols.toNat).map fun (j : Nat) => ((i : Int), (j : Int))

/-- The start-cell scan of `solve_path`: first free cell in row-major order. -/
def findStart (g : Grid) : Option (Int × Int) :=
  (cellsRM g).find? fun p => !g.blocked p.1 p.2

/-- The direction vectors `dr`/`dc` of `solve_path`: up, right, down, left. -/
def dirs : List (Int × Int) := [(-1, 0), (0, 1), (1, 0), (0, -1)]

/-- The traversal state of one `solve_path` run: current cell, visited set,
accumulated path and the `unique_count` counter. -/
structure PState where
  cr : Int
  cc : Int
  visited : List (Int × Int)
  path : List (Int × Int)
  unique_count : Nat
  deriving DecidableEq

/-- Tier 1 of a step: first direction whose neighbour is in bounds, free and
unvisited; move there, record it as visited, append it to the path and bump
`unique_count`. -/
def tier1 (g : Grid) (s : PState) : Option PState :=
  dirs.findSome? fun d =>
    let nr := s.cr + d.1
    let nc := s.cc + d.2
    if inb g nr nc && !g.blocked nr nc && !decide ((nr, nc) ∈ s.visited) then
      some { cr := nr, cc := nc, visited := (nr, nc) :: s.visited,
             path := s.path ++ [(nr, nc)], unique_count := s.unique_count + 1 }
    else none

/-- The inner scan of Tier 2: does cell `(r, c)` have an in-bounds free
unvisited neighbour? -/
def hasUnvisited (g : Grid) (visited : List (Int × Int)) (r c : Int) : Bool :=
  dirs.any fun d =>
    inb g (r + d.1) (c + d.2) && !g.blocked (r + d.1) (c + d.2)
      && !decide ((r + d.1, c + d.2) ∈ visited)

/-- Tier 2 of a step: first direction whose neighbour is in bounds, free and
already visited and itself has an in-bounds free unvisited neighbour; move
there and append it to the path, leaving `visited` and `unique_count` alone. -/
def tier2 (g : Grid) (s : PState) : Option PState :=
  dirs.findSome? fun d =>
    let nr := s.cr + d.1
    let nc := s.cc + d.2
    if inb g nr nc && !g.blocked nr nc && decide ((nr, nc) ∈ s.visited)
        && hasUnvisited g s.visited nr nc then
      some { s with cr := nr, cc := nc, path := s.path ++ [(nr, nc)] }
    else none

/-- The step loop of `solve_path`: up to `n` iterations, each taking the Tier 1
move if one exists, else the Tier 2 move if one exists, else breaking out. -/
def stepLoop (g : Grid) : Nat → PState → PState
  | 0, s => s
  | n + 1, s =>
    match tier1 g s with
    | some t => stepLoop g n t
    | none =>
      match tier2 g s with
      | some t => stepLoop g n t
      | none => s

/-- The state set up by `solve_path` just before its step loop. -/
def initState (p : Int × Int) : PState :=
  { cr := p.1, cc := p.2, visited := [p], path := [p], unique_count := 1 }

/-- The function `solve_path`: returns the accumulated path and the `unique_count` the C
code prints (`([], 0)` when the grid has no free cell). The C `int
movement_points` enters only as the iteration bound of the step loop, so it is
taken as a `Nat` (a negative C value runs the loop zero times). -/
def solve_path (g : Grid) (movement_points : Nat) : List (Int × Int) × Nat :=
  match findStart g with
  | none => ([], 0)
  | some p =>
    let s := stepLoop g movement_points (initState p)
    (s.path, s.unique_count)

/-- The write `g->blocked[r][c] = true`. -/
def markBlocked (g : Grid) (r c : Int) : Grid :=
  { g with blocked := fun x y => if x = r ∧ y = c then true else g.blocked x y }

/-- The counting loop at the top of `generate_blocked`: number of blocked
cells of the grid. -/
def countBlocked (g : Grid) : Nat :=
  ((List.range g.rows.toNat).map fun (r : Nat) =>
    ((List.range g.cols.toNat).filter fun (c : Nat) => g.blocked (r : Int) (c : Int)).length).sum

/-- The rejection-sampling loop of `generate_blocked`. Each element of `rnd`
stands for one iteration's pair of `rand()` draws; the C reduces them with
`% rows` / `% cols`. A sample landing on a blocked cell is rejected (the grid
and the remaining budget are unchanged); otherwise the cell is blocked and the
budget decreases. The C loops on an unbounded random stream; here the loop
also stops if `rnd` runs out. -/
def generate_blocked_loop : Grid → List (Nat × Nat) → Nat → Grid
  | g, _, 0 => g
  | g, [], _ + 1 => g
  | g, (v1, v2) :: rest, n + 1 =>
    let r : Int := ((v1 % g.rows.toNat : Nat) : Int)
    let c : Int := ((v2 % g.cols.toNat : Nat) : Int)
    if g.blocked r c then generate_blocked_loop g rest (n + 1)
    else generate_blocked_loop (markBlocked g r c) rest n

/-- The function `generate_blocked`: returns the grid unchanged when `num_blocked <= 0` or
no free cell remains; otherwise clamps the request to the number of free
cells and runs the sampling loop. -/
def generate_blocked (g : Grid) (num_blocked : Int) (rnd : List (Nat × Nat)) : Grid :=
  if num_blocked ≤ 0 then g
  else if g.rows * g.cols - (countBlocked g : Int) ≤ 0 then g
  else
    generate_blocked_loop g rnd
      (if num_blocked > g.rows * g.cols - (countBlocked g : Int)
       then (g.rows * g.cols - (countBlocked g : Int)).toNat
       else num_blocked.toNat)

/-! ### Specification-side notions -/

/-- A coordinate pair is in bounds. -/
def inBoundsP (g : Grid) (p : Int × Int) : Prop :=
  0 ≤ p.1 ∧ p.1 < g.rows ∧ 0 ≤ p.2 ∧ p.2 < g.cols

instance (g : Grid) (p : Int × Int) : Decidable (inBoundsP g p) := by
  unfold inBoundsP; infer_instance

/-- A coordinate pair is in bounds and free. -/
def freeCell (g : Grid) (p : Int × Int) : Prop :=
  inBoundsP g p ∧ g.blocked p.1 p.2 = false

instance (g : Grid) (p : Int × Int) : Decidable (freeCell g p) := by
  unfold freeCell; infer_instance

/-- Row-major (lexicographic) order on coordinates: smaller row first, then
smaller column. -/
def lexLE (p q : Int × Int) : Prop :=
  p.1 < q.1 ∨ (p.1 = q.1 ∧ p.2 ≤ q.2)

instance (p q : Int × Int) : Decidable (lexLE p q) := by
  unfold lexLE; infer_instance

/-- Strict row-major order on coordinates. -/
def lexLT (p q : Int × Int) : Prop :=
  p.1 < q.1 ∨ (p.1 = q.1 ∧ p.2 < q.2)

/-- Two cells are orthogonally adjacent: they differ by exactly one in exactly
one coordinate. -/
def adjacent (p q : Int × Int) : Prop :=
  (p.1 = q.1 ∧ (p.2 - q.2).natAbs = 1) ∨ (p.2 = q.2 ∧ (p.1 - q.1).natAbs = 1)

instance (p q : Int × Int) : Decidable (adjacent p q) := by
  unfold adjacent; infer_instance

/-! ### Characterizations of one step -/

theorem tier1_eq_some {g : Grid} {s t : PState} (h : tier1 g s = some t) :
    ∃ d ∈ dirs,
      inBoundsP g (s.cr + d.1, s.cc + d.2) ∧
      g.blocked (s.cr + d.1) (s.cc + d.2) = false ∧
      (s.cr + d.1, s.cc + d.2) ∉ s.visited ∧
      t = { cr := s.cr + d.1, cc := s.cc + d.2,
            visited := (s.cr + d.1, s.cc + d.2) :: s.visited,
            path := s.path ++ [(s.cr + d.1, s.cc + d.2)],
            unique_count := s.unique_count + 1 } := by
  obtain ⟨d, hd, hf⟩ := List.exists_of_findSome?_eq_some h
  refine ⟨d, hd, ?_⟩
  dsimp only at hf
  split at hf
  case isTrue hc =>
    rw [Bool.and_eq_true, Bool.and_eq_true] at hc
    obtain ⟨⟨h1, h2⟩, h3⟩ := hc
    rw [inb, decide_eq_true_iff] at h1
    rw [Bool.not_eq_eq_eq_not, Bool.not_true] at h2
    rw [Bool.not_eq_eq_eq_not, Bool.not_true, decide_eq_false_iff_not] at h3
    exact ⟨h1, h2, h3, (Option.some.injEq _ _).mp hf.symm⟩
  case isFalse => exact absurd hf (by simp)

theorem tier2_eq_some {g : Grid} {s t : PState} (h : tier2 g s = some t) :
    ∃ d ∈ dirs,
      inBoundsP g (s.cr + d.1, s.cc + d.2) ∧
      g.blocked (s.cr + d.1) (s.cc + d.2) = false ∧
      (s.cr + d.1, s.cc + d.2) ∈ s.visited ∧
      hasUnvisited g s.visited (s.cr + d.1) (s.cc + d.2) = true ∧
      t = { s with cr := s.cr + d.1
                   cc := s.cc + d.2
                   path := s.path ++ [(s.cr + d.1, s.cc + d.2)] } := by
  obtain ⟨d, hd, hf⟩ := List.exists_of_findSome?_eq_some h
  refine ⟨d, hd, ?_⟩
  dsimp only at hf
  split at hf
  case isTrue hc =>
    rw [Bool.and_eq_true, Bool.and_eq_true, Bool.and_eq_true] at hc
    obtain ⟨⟨⟨h1, h2⟩, h3⟩, h4⟩ := hc
    rw [inb, decide_eq_true_iff] at h1
    rw [Bool.not_eq_eq_eq_not, Bool.not_true] at h2
    rw [decide_eq_true_iff] at h3
    exact ⟨h1, h2, h3, h4, (Option.some.injEq _ _).mp hf.symm⟩
  case isFalse => exact absurd hf (by simp)

theorem adjacent_of_mem_dirs {d : Int × Int} (hd : d ∈ dirs) (r c : Int) :
    adjacent (r, c) (r + d.1, c + d.2) := by
  simp only [dirs, List.mem_cons, List.not_mem_nil, or_false] at hd
  rcases hd with h | h | h | h <;> subst h <;> simp [adjacent]

/-! ### The loop invariant -/

/-- Unfolding of one iteration of the step loop. -/
theorem stepLoop_succ (g : Grid) (n : Nat) (s : PState) :
    stepLoop g (n + 1) s =
      match tier1 g s with
      | some t => stepLoop g n t
      | none =>
        match tier2 g s with
        | some t => stepLoop g n t
        | none => s := by
  rw [stepLoop]

/-- The invariant of the step loop of `solve_path`: the path is a nonempty
chain of adjacent in-bounds free cells ending at the current cell, the visited
list is duplicate-free and holds exactly the cells of the path, and
`unique_count` counts it. -/
structure LoopInv (g : Grid) (s : PState) : Prop where
  path_ne : s.path ≠ []
  last_eq : s.path.getLast? = some (s.cr, s.cc)
  path_free : ∀ p ∈ s.path, freeCell g p
  path_chain : s.path.Chain' adjacent
  vis_nodup : s.visited.Nodup
  vis_mem : ∀ p : Int × Int, p ∈ s.visited ↔ p ∈ s.path
  count_eq : s.unique_count = s.visited.length

theorem inv_init {g : Grid} {p : Int × Int} (hp : freeCell g p) : LoopInv g (initState p) := by
  constructor <;> simp [initState]
  exact hp

theorem inv_tier1 {g : Grid} {s t : PState} (hs : LoopInv g s) (h : tier1 g s = some t) :
    LoopInv g t := by
  obtain ⟨d, hd, hb, hfree, hnv, rfl⟩ := tier1_eq_some h
  constructor
  · simp
  · exact List.getLast?_concat _
  · intro p hp
    rcases List.mem_append.mp hp with hp | hp
    · exact hs.path_free p hp
    · rw [List.mem_singleton] at hp
      subst hp
      exact ⟨hb, hfree⟩
  · rw [List.chain'_append]
    refine ⟨hs.path_chain, List.chain'_singleton _, ?_⟩
    intro x hx y hy
    rw [hs.last_eq, Option.mem_some_iff] at hx
    rw [List.head?_cons, Option.mem_some_iff] at hy
    subst hx
    subst hy
    exact adjacent_of_mem_dirs hd s.cr s.cc
  · exact List.nodup_cons.mpr ⟨hnv, hs.vis_nodup⟩
  · intro p
    simp only [List.mem_cons, List.mem_append, List.mem_singleton, hs.vis_mem p]
    tauto
  · simp [hs.count_eq]

theorem inv_tier2 {g : Grid} {s t : PState} (hs : LoopInv g s) (h : tier2 g s = some t) :
    LoopInv g t := by
  obtain ⟨d, hd, hb, hfree, hvq, _, rfl⟩ := tier2_eq_some h
  constructor
  · simp
  · exact List.getLast?_concat _
  · intro p hp
    rcases List.mem_append.mp hp with hp | hp
    · exact hs.path_free p hp
    · rw [List.mem_singleton] at hp
      subst hp
      exact ⟨hb, hfree⟩
  · rw [List.chain'_append]
    refine ⟨hs.path_chain, List.chain'_singleton _, ?_⟩
    intro x hx y hy
    rw [hs.last_eq, Option.mem_some_iff] at hx
    rw [List.head?_cons, Option.mem_some_iff] at hy
    subst hx
    subst hy
    exact adjacent_of_mem_dirs hd s.cr s.cc
  · exact hs.vis_nodup
  · intro p
    simp only [List.mem_append, List.mem_singleton, hs.vis_mem p]
    constructor
    · intro hp
      exact Or.inl hp
    · rintro (hp | rfl)
      · exact hp
      · exact (hs.vis_mem _).mp hvq
  · exact hs.count_eq

theorem inv_stepLoop {g : Grid} (n : Nat) {s : PState} (hs : LoopInv g s) :
    LoopInv g (stepLoop g n s) := by
  induction n generalizing s with
  | zero => exact hs
  | succ n ih =>
    rw [stepLoop_succ]
    cases h1 : tier1 g s with
    | some t => exact ih (inv_tier1 hs h1)
    | none =>
      cases h2 : tier2 g s with
      | some t => exact ih (inv_tier2 hs h2)
      | none => exact hs

theorem stepLoop_path_extend {g : Grid} (n : Nat) (s : PState) :
    ∃ l, (stepLoop g n s).path = s.path ++ l := by
  induction n generalizing s with
  | zero => exact ⟨[], by simp [stepLoop]⟩
  | succ n ih =>
    rw [stepLoop_succ]
    cases h1 : tier1 g s with
    | some t =>
      obtain ⟨l, hl⟩ := ih t
      obtain ⟨d, _, _, _, _, rfl⟩ := tier1_eq_some h1
      refine ⟨(s.cr + d.1, s.cc + d.2) :: l, ?_⟩
      rw [hl]
      simp
    | none =>
      cases h2 : tier2 g s with
      | some t =>
        obtain ⟨l, hl⟩ := ih t
        obtain ⟨d, _, _, _, _, _, rfl⟩ := tier2_eq_some h2
        refine ⟨(s.cr + d.1, s.cc + d.2) :: l, ?_⟩
        rw [hl]
        simp
      | none => exact ⟨[], by simp⟩

theorem stepLoop_path_length {g : Grid} (n : Nat) (s : PState) :
    (stepLoop g n s).path.length ≤ s.path.length + n := by
  induction n generalizing s with
  | zero => simp [stepLoop]
  | succ n ih =>
    rw [stepLoop_succ]
    cases h1 : tier1 g s with
    | some t =>
      refine le_trans (ih t) ?_
      obtain ⟨d, _, _, _, _, rfl⟩ := tier1_eq_some h1
      simp
      omega
    | none =>
      cases h2 : tier2 g s with
      | some t =>
        refine le_trans (ih t) ?_
        obtain ⟨d, _, _, _, _, _, rfl⟩ := tier2_eq_some h2
        simp
        omega
      | none =>
        show s.path.length ≤ s.path.length + (n + 1)
        omega

/-! ### The start-cell scan -/

theorem inBoundsP_iff {g : Grid} {a b : Int} :
    inBoundsP g (a, b) ↔ 0 ≤ a ∧ a < g.rows ∧ 0 ≤ b ∧ b < g.cols := Iff.rfl

theorem lexLT_iff {p q : Int × Int} :
    lexLT p q ↔ p.1 < q.1 ∨ (p.1 = q.1 ∧ p.2 < q.2) := Iff.rfl

theorem lexLE_iff {p q : Int × Int} :
    lexLE p q ↔ p.1 < q.1 ∨ (p.1 = q.1 ∧ p.2 ≤ q.2) := Iff.rfl

theorem mem_cellsRM {g : Grid} {a b : Int} : (a, b) ∈ cellsRM g ↔ inBoundsP g (a, b) := by
  rw [cellsRM, List.mem_flatMap, inBoundsP_iff]
  constructor
  · rintro ⟨i, hi, h⟩
    rw [List.mem_map] at h
    obtain ⟨j, hj, heq⟩ := h
    rw [List.mem_range] at hi hj
    injection heq with e1 e2
    refine ⟨?_, ?_, ?_, ?_⟩ <;> omega
  · rintro ⟨h1, h2, h3, h4⟩
    refine ⟨a.toNat, ?_, ?_⟩
    · rw [List.mem_range]
      omega
    · rw [List.mem_map]
      refine ⟨b.toNat, ?_, ?_⟩
      · rw [List.mem_range]
        omega
      · rw [Int.toNat_of_nonneg h1, Int.toNat_of_nonneg h3]

theorem cellsRM_pairwise (g : Grid) : (cellsRM g).Pairwise lexLT := by
  rw [cellsRM, List.pairwise_flatMap]
  refine ⟨?_, ?_⟩
  · intro i _
    refine List.pairwise_map.mpr ?_
    refine (List.pairwise_lt_range _).imp ?_
    intro j1 j2 h
    rw [lexLT_iff]
    refine Or.inr ⟨rfl, ?_⟩
    show (j1 : Int) < (j2 : Int)
    exact_mod_cast h
  · refine (List.pairwise_lt_range _).imp ?_
    intro i1 i2 h x hx y hy
    rw [List.mem_map] at hx hy
    obtain ⟨j1, _, rfl⟩ := hx
    obtain ⟨j2, _, rfl⟩ := hy
    rw [lexLT_iff]
    refine Or.inl ?_
    show (i1 : Int) < (i2 : Int)
    exact_mod_cast h

/-- Running `find?` on a list that is pairwise related by `R` returns an element that
is either equal to, or `R`-below, every element satisfying the predicate. -/
theorem find?_first {α : Type} {R : α → α → Prop} :
    ∀ {l : List α} {p : α → Bool} {a : α}, l.Pairwise R → l.find? p = some a →
      ∀ b ∈ l, p b = true → b = a ∨ R a b := by
  intro l
  induction l with
  | nil => intro p a _ h; simp at h
  | cons x xs ih =>
    intro p a hpw hf b hb hpb
    by_cases hx : p x = true
    · rw [List.find?_cons_of_pos _ hx, Option.some.injEq] at hf
      subst hf
      rcases List.mem_cons.mp hb with rfl | hb
      · exact Or.inl rfl
      · exact Or.inr ((List.pairwise_cons.mp hpw).1 b hb)
    · rw [List.find?_cons_of_neg _ (by simpa using hx)] at hf
      rcases List.mem_cons.mp hb with rfl | hb
      · exact absurd hpb hx
      · exact ih (List.pairwise_cons.mp hpw).2 hf b hb hpb

theorem findStart_none {g : Grid} :
    findStart g = none ↔ ∀ a b : Int, inBoundsP g (a, b) → g.blocked a b = true := by
  rw [findStart, List.find?_eq_none]
  constructor
  · intro h a b hab
    have := h (a, b) (mem_cellsRM.mpr hab)
    simpa using this
  · intro h p hp
    obtain ⟨a, b⟩ := p
    have := h a b (mem_cellsRM.mp hp)
    simp [this]

theorem findStart_some {g : Grid} {p : Int × Int} (h : findStart g = some p) :
    freeCell g p ∧ ∀ q, freeCell g q → lexLE p q := by
  have hmem := List.mem_of_find?_eq_some h
  have hpred := List.find?_some h
  have hfree : freeCell g p := by
    obtain ⟨a, b⟩ := p
    exact ⟨mem_cellsRM.mp hmem, by simpa using hpred⟩
  refine ⟨hfree, ?_⟩
  intro q hq
  have hqmem : q ∈ cellsRM g := by
    obtain ⟨a, b⟩ := q
    exact mem_cellsRM.mpr hq.1
  have hfirst := find?_first (cellsRM_pairwise g) h q hqmem (by simp [hq.2])
  rw [lexLE_iff]
  rcases hfirst with rfl | hlt
  · exact Or.inr ⟨rfl, le_refl _⟩
  · rw [lexLT_iff] at hlt
    rcases hlt with h1 | ⟨h1, h2⟩
    · exact Or.inl h1
    · exact Or.inr ⟨h1, le_of_lt h2⟩

theorem findStart_isSome {g : Grid} {p : Int × Int} (hp : freeCell g p) :
    ∃ q, findStart g = some q := by
  cases h : findStart g with
  | some q => exact ⟨q, rfl⟩
  | none =>
    obtain ⟨a, b⟩ := p
    have := findStart_none.mp h a b hp.1
    rw [hp.2] at this
    exact absurd this (by simp)

/-! ### Tier 1 and Tier 2 as worded by the specification -/

/-- Spec wording: a neighbour cell that is "in-bounds, free". -/
def freeInBounds (g : Grid) (r c : Int) : Prop :=
  (0 ≤ r ∧ r < g.rows ∧ 0 ≤ c ∧ c < g.cols) ∧ g.blocked r c = false

instance (g : Grid) (r c : Int) : Decidable (freeInBounds g r c) := by
  unfold freeInBounds; infer_instance

/-- Spec wording for a Tier 1 move to `(nr, nc)`: it "becomes the new
`current`; append it to `path`, add it to `visited`, increment
`unique_count`". -/
def tier1Advance (s : PState) (nr nc : Int) : PState :=
  { cr := nr, cc := nc, visited := (nr, nc) :: s.visited,
    path := s.path ++ [(nr, nc)], unique_count := s.unique_count + 1 }

/-- Tier 1 as the spec words it: the four orthogonal neighbours in the fixed
priority order up, right, down, left (direction vectors `(-1,0)`, `(0,1)`,
`(1,0)`, `(0,-1)`); the first one that is in-bounds, free, and not yet visited
is taken, and scanning stops at the first match. -/
def tier1Spec (g : Grid) (s : PState) : Option PState :=
  if freeInBounds g (s.cr + -1) (s.cc + 0) ∧ (s.cr + -1, s.cc + 0) ∉ s.visited then
    some (tier1Advance s (s.cr + -1) (s.cc + 0))
  else if freeInBounds g (s.cr + 0) (s.cc + 1) ∧ (s.cr + 0, s.cc + 1) ∉ s.visited then
    some (tier1Advance s (s.cr + 0) (s.cc + 1))
  else if freeInBounds g (s.cr + 1) (s.cc + 0) ∧ (s.cr + 1, s.cc + 0) ∉ s.visited then
    some (tier1Advance s (s.cr + 1) (s.cc + 0))
  else if freeInBounds g (s.cr + 0) (s.cc + -1) ∧ (s.cr + 0, s.cc + -1) ∉ s.visited then
    some (tier1Advance s (s.cr + 0) (s.cc + -1))
  else none

theorem t1cond (g : Grid) (v : List (Int × Int)) (nr nc : Int) :
    (inb g nr nc && !g.blocked nr nc && !decide ((nr, nc) ∈ v))
      = decide (freeInBounds g nr nc ∧ (nr, nc) ∉ v) := by
  rw [Bool.eq_iff_iff]
  simp [inb, freeInBounds, and_assoc]

theorem tier1_eq_spec (g : Grid) (s : PState) : tier1 g s = tier1Spec g s := by
  rw [tier1, tier1Spec, dirs]
  simp only [List.findSome?_cons, List.findSome?_nil, t1cond]
  rcases Decidable.em (freeInBounds g (s.cr + -1) (s.cc + 0) ∧ (s.cr + -1, s.cc + 0) ∉ s.visited) with h1 | h1
  · rw [if_pos (decide_eq_true h1), if_pos h1]; rfl
  · rw [if_neg (by simpa using h1), if_neg h1]
    rcases Decidable.em (freeInBounds g (s.cr + 0) (s.cc + 1) ∧ (s.cr + 0, s.cc + 1) ∉ s.visited) with h2 | h2
    · rw [if_pos (decide_eq_true h2), if_pos h2]; rfl
    · rw [if_neg (by simpa using h2), if_neg h2]
      rcases Decidable.em (freeInBounds g (s.cr + 1) (s.cc + 0) ∧ (s.cr + 1, s.cc + 0) ∉ s.visited) with h3 | h3
      · rw [if_pos (decide_eq_true h3), if_pos h3]; rfl
      · rw [if_neg (by simpa using h3), if_neg h3]
        rcases Decidable.em (freeInBounds g (s.cr + 0) (s.cc + -1) ∧ (s.cr + 0, s.cc + -1) ∉ s.visited) with h4 | h4
        · rw [if_pos (decide_eq_true h4), if_pos h4]; rfl
        · rw [if_neg (by simpa using h4), if_neg h4]

/-- The inner scan of Tier 2 as the spec words it: the cell `(r, c)` has some
in-bounds, free, unvisited orthogonal neighbour, the four candidates taken in
the same priority order up, right, down, left. -/
theorem hasUnvisited_eq (g : Grid) (v : List (Int × Int)) (r c : Int) :
    hasUnvisited g v r c
      = decide (freeInBounds g (r + -1) (c + 0) ∧ (r + -1, c + 0) ∉ v ∨
                freeInBounds g (r + 0) (c + 1) ∧ (r + 0, c + 1) ∉ v ∨
                freeInBounds g (r + 1) (c + 0) ∧ (r + 1, c + 0) ∉ v ∨
                freeInBounds g (r + 0) (c + -1) ∧ (r + 0, c + -1) ∉ v) := by
  rw [Bool.eq_iff_iff, hasUnvisited, dirs]
  simp only [List.any_cons, List.any_nil, t1cond, Bool.or_eq_true, decide_eq_true_eq,
    Bool.false_eq_true, or_false]

/-- Spec wording for the Tier 2 selection condition of a neighbour `(nr, nc)`
of the current cell: in-bounds, free, and already visited, and itself having
an in-bounds, free, unvisited orthogonal neighbour. -/
def tier2Cond (g : Grid) (v : List (Int × Int)) (nr nc : Int) : Prop :=
  freeInBounds g nr nc ∧ (nr, nc) ∈ v ∧
    (freeInBounds g (nr + -1) (nc + 0) ∧ (nr + -1, nc + 0) ∉ v ∨
     freeInBounds g (nr + 0) (nc + 1) ∧ (nr + 0, nc + 1) ∉ v ∨
     freeInBounds g (nr + 1) (nc + 0) ∧ (nr + 1, nc + 0) ∉ v ∨
     freeInBounds g (nr + 0) (nc + -1) ∧ (nr + 0, nc + -1) ∉ v)

instance (g : Grid) (v : List (Int × Int)) (nr nc : Int) : Decidable (tier2Cond g v nr nc) := by
  unfold tier2Cond; infer_instance

/-- Spec wording for a Tier 2 move to `(nr, nc)`: it "becomes the new
`current` (a lateral move that does not itself increase `unique_count`);
append it to `path`" — the append is unconditional, so a cell already in the
path is appended again. -/
def tier2Move (s : PState) (nr nc : Int) : PState :=
  { s with cr := nr, cc := nc, path := s.path ++ [(nr, nc)] }

/-- Tier 2 as the spec words it, scanning the four neighbours in the fixed
priority order up, right, down, left. -/
def tier2Spec (g : Grid) (s : PState) : Option PState :=
  if tier2Cond g s.visited (s.cr + -1) (s.cc + 0) then some (tier2Move s (s.cr + -1) (s.cc + 0))
  else if tier2Cond g s.visited (s.cr + 0) (s.cc + 1) then some (tier2Move s (s.cr + 0) (s.cc + 1))
  else if tier2Cond g s.visited (s.cr + 1) (s.cc + 0) then some (tier2Move s (s.cr + 1) (s.cc + 0))
  else if tier2Cond g s.visited (s.cr + 0) (s.cc + -1) then some (tier2Move s (s.cr + 0) (s.cc + -1))
  else none

theorem t2cond (g : Grid) (v : List (Int × Int)) (nr nc : Int) :
    (inb g nr nc && !g.blocked nr nc && decide ((nr, nc) ∈ v) && hasUnvisited g v nr nc)
      = decide (tier2Cond g v nr nc) := by
  rw [Bool.eq_iff_iff, hasUnvisited_eq]
  simp [inb, tier2Cond, freeInBounds, and_assoc]

theorem tier2_eq_spec (g : Grid) (s : PState) : tier2 g s = tier2Spec g s := by
  rw [tier2, tier2Spec, dirs]
  simp only [List.findSome?_cons, List.findSome?_nil, t2cond]
  rcases Decidable.em (tier2Cond g s.visited (s.cr + -1) (s.cc + 0)) with h1 | h1
  · rw [if_pos (decide_eq_true h1), if_pos h1]; rfl
  · rw [if_neg (by simpa using h1), if_neg h1]
    rcases Decidable.em (tier2Cond g s.visited (s.cr + 0) (s.cc + 1)) with h2 | h2
    · rw [if_pos (decide_eq_true h2), if_pos h2]; rfl
    · rw [if_neg (by simpa using h2), if_neg h2]
      rcases Decidable.em (tier2Cond g s.visited (s.cr + 1) (s.cc + 0)) with h3 | h3
      · rw [if_pos (decide_eq_true h3), if_pos h3]; rfl
      · rw [if_neg (by simpa using h3), if_neg h3]
        rcases Decidable.em (tier2Cond g s.visited (s.cr + 0) (s.cc + -1)) with h4 | h4
        · rw [if_pos (decide_eq_true h4), if_pos h4]; rfl
        · rw [if_neg (by simpa using h4), if_neg h4]

/-! ### Counting blocked cells -/

theorem length_filter_update (a : Nat) (p q : Nat → Bool)
    (hq : ∀ x, q x = if x = a then true else p x) (hpa : p a = false) :
    ∀ (l : List Nat), l.Nodup → a ∈ l →
      (l.filter q).length = (l.filter p).length + 1 := by
  intro l
  induction l with
  | nil => intro _ ha; exact absurd ha (List.not_mem_nil a)
  | cons x xs ih =>
    intro hnd ha
    rw [List.nodup_cons] at hnd
    rw [List.filter_cons, List.filter_cons]
    rcases List.mem_cons.mp ha with rfl | ha
    · have hqa : q a = true := by rw [hq]; simp
      rw [hqa, hpa]
      have hfe : xs.filter q = xs.filter p := by
        apply List.filter_congr
        intro y hy
        rw [hq]
        have : y ≠ a := fun h => hnd.1 (h ▸ hy)
        simp [this]
      rw [hfe]
      simp
    · have hxa : x ≠ a := fun h => hnd.1 (h ▸ ha)
      have hqx : q x = p x := by rw [hq]; simp [hxa]
      rw [hqx]
      by_cases hpx : p x = true
      · rw [if_pos hpx, if_pos hpx]
        simp only [List.length_cons]
        rw [ih hnd.2 ha]
      · rw [if_neg hpx, if_neg hpx]
        exact ih hnd.2 ha

theorem sum_map_update (a : Nat) (f h : Nat → Nat)
    (hfa : h a = f a + 1) (hother : ∀ x, x ≠ a → h x = f x) :
    ∀ (l : List Nat), l.Nodup → a ∈ l →
      (l.map h).sum = (l.map f).sum + 1 := by
  intro l
  induction l with
  | nil => intro _ ha; exact absurd ha (List.not_mem_nil a)
  | cons x xs ih =>
    intro hnd ha
    rw [List.nodup_cons] at hnd
    rw [List.map_cons, List.map_cons, List.sum_cons, List.sum_cons]
    rcases List.mem_cons.mp ha with rfl | ha
    · have : xs.map h = xs.map f := by
        apply List.map_congr_left
        intro y hy
        exact hother y (fun hc => hnd.1 (hc ▸ hy))
      rw [this, hfa]
      omega
    · rw [hother x (fun hc => hnd.1 (hc ▸ ha)), ih hnd.2 ha]
      omega

theorem markBlocked_rows (g : Grid) (r c : Int) : (markBlocked g r c).rows = g.rows := rfl

theorem markBlocked_cols (g : Grid) (r c : Int) : (markBlocked g r c).cols = g.cols := rfl

theorem markBlocked_blocked (g : Grid) (r c x y : Int) :
    (markBlocked g r c).blocked x y = if x = r ∧ y = c then true else g.blocked x y := rfl

theorem countBlocked_mark {g : Grid} {r c : Int}
    (hr1 : 0 ≤ r) (hr2 : r < g.rows) (hc1 : 0 ≤ c) (hc2 : c < g.cols)
    (hfree : g.blocked r c = false) :
    countBlocked (markBlocked g r c) = countBlocked g + 1 := by
  rw [countBlocked, countBlocked, markBlocked_rows, markBlocked_cols]
  apply sum_map_update r.toNat
    (fun (i : Nat) => ((List.range g.cols.toNat).filter fun (j : Nat) =>
      g.blocked (i : Int) (j : Int)).length)
    (fun (i : Nat) => ((List.range g.cols.toNat).filter fun (j : Nat) =>
      (markBlocked g r c).blocked (i : Int) (j : Int)).length)
  · apply length_filter_update c.toNat
      (fun j => g.blocked ((r.toNat : Nat) : Int) (j : Int))
    · intro x
      rw [markBlocked_blocked]
      by_cases hx : x = c.toNat
      · subst hx
        have e1 : ((r.toNat : Nat) : Int) = r := Int.toNat_of_nonneg hr1
        have e2 : ((c.toNat : Nat) : Int) = c := Int.toNat_of_nonneg hc1
        rw [if_pos ⟨e1, e2⟩, if_pos rfl]
      · have : ¬(((r.toNat : Nat) : Int) = r ∧ ((x : Nat) : Int) = c) := by
          rintro ⟨-, h2⟩
          omega
        rw [if_neg this, if_neg hx]
    · have e1 : ((r.toNat : Nat) : Int) = r := Int.toNat_of_nonneg hr1
      have e2 : ((c.toNat : Nat) : Int) = c := Int.toNat_of_nonneg hc1
      rw [e1, e2, hfree]
    · exact List.nodup_range _
    · rw [List.mem_range]
      omega
  · intro x hx
    congr 1
    apply List.filter_congr
    intro j _
    rw [markBlocked_blocked]
    have : ¬(((x : Nat) : Int) = r ∧ ((j : Nat) : Int) = c) := by
      rintro ⟨h1, -⟩
      omega
    rw [if_neg this]
  · exact List.nodup_range _
  · rw [List.mem_range]
    omega

theorem countBlocked_le (g : Grid) : countBlocked g ≤ g.rows.toNat * g.cols.toNat := by
  rw [countBlocked]
  have h := List.sum_le_card_nsmul
    ((List.range g.rows.toNat).map fun (r : Nat) =>
      ((List.range g.cols.toNat).filter fun (c : Nat) => g.blocked (r : Int) (c : Int)).length)
    g.cols.toNat ?_
  · simpa using h
  · intro x hx
    rw [List.mem_map] at hx
    obtain ⟨i, _, rfl⟩ := hx
    exact le_trans (List.length_filter_le _ _) (by simp)

theorem gbl_zero (g : Grid) (rnd : List (Nat × Nat)) : generate_blocked_loop g rnd 0 = g := by
  cases rnd <;> rfl

theorem gbl_nil (g : Grid) (n : Nat) : generate_blocked_loop g [] n = g := by
  cases n <;> rfl

theorem gbl_cons (g : Grid) (v1 v2 : Nat) (rest : List (Nat × Nat)) (n : Nat) :
    generate_blocked_loop g ((v1, v2) :: rest) (n + 1) =
      if g.blocked ((v1 % g.rows.toNat : Nat) : Int) ((v2 % g.cols.toNat : Nat) : Int)
      then generate_blocked_loop g rest (n + 1)
      else generate_blocked_loop
        (markBlocked g ((v1 % g.rows.toNat : Nat) : Int) ((v2 % g.cols.toNat : Nat) : Int))
        rest n := rfl

theorem gbl_spec (rnd : List (Nat × Nat)) :
    ∀ (g : Grid) (n : Nat), 0 < g.rows → 0 < g.cols →
      (generate_blocked_loop g rnd n).rows = g.rows ∧
      (generate_blocked_loop g rnd n).cols = g.cols ∧
      countBlocked (generate_blocked_loop g rnd n) ≤ countBlocked g + n ∧
      (∀ r c : Int, g.blocked r c = true → (generate_blocked_loop g rnd n).blocked r c = true) ∧
      (∀ r c : Int, (generate_blocked_loop g rnd n).blocked r c = true →
        g.blocked r c = true ∨ inBoundsP g (r, c)) := by
  induction rnd with
  | nil =>
    intro g n _ _
    rw [gbl_nil]
    exact ⟨rfl, rfl, by omega, fun r c h => h, fun r c h => Or.inl h⟩
  | cons vp rest ih =>
    intro g n hr hc
    obtain ⟨v1, v2⟩ := vp
    cases n with
    | zero =>
      rw [gbl_zero]
      exact ⟨rfl, rfl, by omega, fun r c h => h, fun r c h => Or.inl h⟩
    | succ n =>
      rw [gbl_cons]
      by_cases hb : g.blocked ((v1 % g.rows.toNat : Nat) : Int) ((v2 % g.cols.toNat : Nat) : Int) = true
      · rw [if_pos hb]
        exact ih g (n + 1) hr hc
      · rw [if_neg hb]
        have hr2 : ((v1 % g.rows.toNat : Nat) : Int) < g.rows := by
          have := Nat.mod_lt v1 (y := g.rows.toNat) (by omega)
          omega
        have hc2 : ((v2 % g.cols.toNat : Nat) : Int) < g.cols := by
          have := Nat.mod_lt v2 (y := g.cols.toNat) (by omega)
          omega
        obtain ⟨e1, e2, hcount, hmono, hnew⟩ :=
          ih (markBlocked g ((v1 % g.rows.toNat : Nat) : Int) ((v2 % g.cols.toNat : Nat) : Int)) n
            (by rw [markBlocked_rows]; exact hr) (by rw [markBlocked_cols]; exact hc)
        have hmark := countBlocked_mark (g := g) (Int.natCast_nonneg _) hr2
          (Int.natCast_nonneg _) hc2 (Bool.not_eq_true _ ▸ hb)
        refine ⟨by rw [e1, markBlocked_rows], by rw [e2, markBlocked_cols], ?_, ?_, ?_⟩
        · rw [hmark] at hcount
          omega
        · intro x y hxy
          refine hmono x y ?_
          rw [markBlocked_blocked]
          by_cases hcase : x = ((v1 % g.rows.toNat : Nat) : Int) ∧ y = ((v2 % g.cols.toNat : Nat) : Int)
          · rw [if_pos hcase]
          · rw [if_neg hcase]
            exact hxy
        · intro x y hxy
          rcases hnew x y hxy with h | h
          · rw [markBlocked_blocked] at h
            by_cases hcase : x = ((v1 % g.rows.toNat : Nat) : Int) ∧ y = ((v2 % g.cols.toNat : Nat) : Int)
            · refine Or.inr ?_
              rw [inBoundsP_iff]
              obtain ⟨rfl, rfl⟩ := hcase
              exact ⟨Int.natCast_nonneg _, hr2, Int.natCast_nonneg _, hc2⟩
            · rw [if_neg hcase] at h
              exact Or.inl h
          · exact Or.inr h

/-! ### The demonstration grids of `main` -/

/-- Test 1 of `main`: 1x1 grid, no blocked cells. -/
def gridTest1 : Grid := create_grid 1 1 []

/-- Test 3 of `main`: 3x3 grid with the middle row blocked. -/
def gridTest3 : Grid := create_grid 3 3 [(1, 0), (1, 1), (1, 2)]

/-- A 2x2 grid with every cell blocked (the configuration of test 2 of `main`). -/
def gridAllBlocked : Grid := { rows := 2, cols := 2, blocked := fun _ _ => true }

/-! ### The claims -/

/-- C1: for every grid containing at least one free cell and every
`movement_points >= 0`, the planner returns a non-empty path whose first
element is the first free cell in row-major order (smallest row, then
smallest column within that row). -/
theorem claim_C1 (g : Grid) (movement_points : Nat) (h : ∃ p, freeCell g p) :
    (solve_path g movement_points).1 ≠ [] ∧
    ∃ p, (solve_path g movement_points).1.head? = some p ∧ freeCell g p ∧
      ∀ q, freeCell g q → lexLE p q := by
  obtain ⟨p0, hp0⟩ := h
  obtain ⟨q, hq⟩ := findStart_isSome hp0
  obtain ⟨hqfree, hqmin⟩ := findStart_some hq
  obtain ⟨l, hl⟩ := stepLoop_path_extend movement_points (initState q)
  have hpath : (solve_path g movement_points).1 = q :: l := by
    simp only [solve_path, hq]
    rw [hl]
    rfl
  refine ⟨by rw [hpath]; simp, ⟨q, ?_, hqfree, hqmin⟩⟩
  rw [hpath]
  rfl

theorem claim_C1_witness :
    (solve_path gridTest1 1).1 ≠ [] ∧
    ∃ p, (solve_path gridTest1 1).1.head? = some p ∧ freeCell gridTest1 p ∧
      ∀ q, freeCell gridTest1 q → lexLE p q :=
  claim_C1 gridTest1 1 ⟨(0, 0), by decide⟩

/-- C2: at each step of the planner, Tier 1 examines the four orthogonal
neighbours of the current cell in the fixed priority order up, right, down,
left (direction vectors `(-1,0)`, `(0,1)`, `(1,0)`, `(0,-1)`); the first
neighbour that is in-bounds, free and not yet visited becomes the new current
cell, is appended to the path, added to visited, and `unique_count` is
incremented; scanning stops at the first match. (`tier1Spec` is that policy
written out as the spec words it, and each loop iteration consults Tier 1
first.) -/
theorem claim_C2 (g : Grid) (s : PState) (n : Nat) :
    tier1 g s = tier1Spec g s ∧
    stepLoop g (n + 1) s =
      (match tier1 g s with
       | some t => stepLoop g n t
       | none =>
         match tier2 g s with
         | some t => stepLoop g n t
         | none => s) :=
  ⟨tier1_eq_spec g s, stepLoop_succ g n s⟩

/-- C3: when Tier 1 finds no move, Tier 2 scans the four neighbours in the
same order; the first in-bounds free visited neighbour that itself has an
in-bounds free unvisited neighbour becomes the new current cell and is
appended to the path without incrementing `unique_count` (duplicates in the
path included, as `tier2Move` appends unconditionally); if neither tier finds
a move, the loop terminates early, forfeiting the remaining budget. -/
theorem claim_C3 (g : Grid) (s : PState) (n : Nat) :
    tier2 g s = tier2Spec g s ∧
    (tier1 g s = none → tier2 g s = none → stepLoop g (n + 1) s = s) := by
  refine ⟨tier2_eq_spec g s, ?_⟩
  intro h1 h2
  rw [stepLoop_succ, h1, h2]

/-- C4: for every grid and every `movement_points >= 0`, the returned path has
length at most `movement_points + 1`. -/
theorem claim_C4 (g : Grid) (movement_points : Nat) :
    (solve_path g movement_points).1.length ≤ movement_points + 1 := by
  cases hs : findStart g with
  | none => simp [solve_path, hs]
  | some p =>
    have h := stepLoop_path_length (g := g) movement_points (initState p)
    simp only [solve_path, hs]
    have hlen : (initState p).path.length = 1 := rfl
    rw [hlen] at h
    omega

/-- C5: for every grid and every `movement_points >= 0`, the returned
`unique_count` equals the number of distinct coordinates in the returned
path. -/
theorem claim_C5 (g : Grid) (movement_points : Nat) :
    (solve_path g movement_points).2 = (solve_path g movement_points).1.toFinset.card := by
  cases hs : findStart g with
  | none => simp [solve_path, hs]
  | some p =>
    simp only [solve_path, hs]
    have hinv := inv_stepLoop movement_points (inv_init (findStart_some hs).1)
    have hset : (stepLoop g movement_points (initState p)).visited.toFinset
        = (stepLoop g movement_points (initState p)).path.toFinset := by
      ext x
      simp only [List.mem_toFinset]
      exact hinv.vis_mem x
    rw [hinv.count_eq, ← List.toFinset_card_of_nodup hinv.vis_nodup, hset]

/-- C6: for every grid in which every in-bounds cell is blocked and every
`movement_points`, the planner returns an empty path and `unique_count = 0`
as a normal result. -/
theorem claim_C6 (g : Grid) (movement_points : Nat)
    (h : ∀ r c : Int, inBoundsP g (r, c) → g.blocked r c = true) :
    solve_path g movement_points = ([], 0) := by
  have hnone : findStart g = none := findStart_none.mpr h
  simp [solve_path, hnone]

theorem claim_C6_witness : solve_path gridAllBlocked 10 = ([], 0) :=
  claim_C6 gridAllBlocked 10 (fun _ _ _ => rfl)

/-- C7: on the 3x3 grid whose blocked cells are exactly the middle row,
running the planner with `movement_points = 5` yields `unique_count <= 3` and
a path in which no element has row index 1. -/
theorem claim_C7 :
    (solve_path gridTest3 5).2 ≤ 3 ∧ ∀ p ∈ (solve_path gridTest3 5).1, p.1 ≠ 1 := by
  decide

/-- C9 (implicit): every coordinate in the returned path is in bounds and
free, and every pair of consecutive path entries is orthogonally adjacent
(differs by exactly one in exactly one coordinate). -/
theorem claim_C9 (g : Grid) (movement_points : Nat) :
    (∀ p ∈ (solve_path g movement_points).1, freeCell g p) ∧
    (solve_path g movement_points).1.Chain' adjacent := by
  cases hs : findStart g with
  | none => simp [solve_path, hs]
  | some p =>
    simp only [solve_path, hs]
    have hinv := inv_stepLoop movement_points (inv_init (findStart_some hs).1)
    exact ⟨hinv.path_free, hinv.path_chain⟩

/-- C8: for every grid with positive dimensions, every requested count and
every sequence of values from the random source, `generate_blocked` adds at
most `min(requested, rows*cols - already_blocked)` blocked cells, never
unblocks a cell, and every newly blocked cell is in bounds (it was free
before the call, being newly blocked). -/
theorem claim_C8 (g : Grid) (k : Int) (rnd : List (Nat × Nat))
    (h1 : 0 < g.rows) (h2 : 0 < g.cols) :
    countBlocked (generate_blocked g k rnd)
        ≤ countBlocked g + min k.toNat (g.rows.toNat * g.cols.toNat - countBlocked g) ∧
    (∀ r c : Int, g.blocked r c = true → (generate_blocked g k rnd).blocked r c = true) ∧
    (∀ r c : Int, (generate_blocked g k rnd).blocked r c = true →
      g.blocked r c = true ∨ inBoundsP g (r, c)) := by
  have hle := countBlocked_le g
  set N := g.rows.toNat * g.cols.toNat with hN
  have hT : g.rows * g.cols = (N : Int) := by
    rw [hN, Nat.cast_mul, Int.toNat_of_nonneg h1.le, Int.toNat_of_nonneg h2.le]
  rw [generate_blocked, hT]
  by_cases h0 : k ≤ 0
  · rw [if_pos h0]
    exact ⟨Nat.le_add_right _ _, fun r c h => h, fun r c h => Or.inl h⟩
  · rw [if_neg h0]
    by_cases hA : (N : Int) - (countBlocked g : Int) ≤ 0
    · rw [if_pos hA]
      exact ⟨Nat.le_add_right _ _, fun r c h => h, fun r c h => Or.inl h⟩
    · rw [if_neg hA]
      obtain ⟨_, _, hcount, hmono, hnew⟩ := gbl_spec rnd g
        (if k > (N : Int) - (countBlocked g : Int)
         then ((N : Int) - (countBlocked g : Int)).toNat else k.toNat) h1 h2
      refine ⟨le_trans hcount ?_, hmono, hnew⟩
      by_cases hk : k > (N : Int) - (countBlocked g : Int)
      · rw [if_pos hk]
        omega
      · rw [if_neg hk]
        omega

theorem claim_C8_witness :
    countBlocked (generate_blocked gridTest1 1 [(0, 0)])
        ≤ countBlocked gridTest1
          + min (1 : Int).toNat
            (gridTest1.rows.toNat * gridTest1.cols.toNat - countBlocked gridTest1) ∧
    (∀ r c : Int, gridTest1.blocked r c = true →
      (generate_blocked gridTest1 1 [(0, 0)]).blocked r c = true) ∧
    (∀ r c : Int, (generate_blocked gridTest1 1 [(0, 0)]).blocked r c = true →
      gridTest1.blocked r c = true ∨ inBoundsP gridTest1 (r, c)) :=
  claim_C8 gridTest1 1 [(0, 0)] (by decide) (by decide)

/-- C10 (implicit): the function `generate_blocked` returns the grid completely unchanged
when the requested count is zero or negative, or when no free cell remains
(`available <= 0`). -/
theorem claim_C10 :
    (∀ (g : Grid) (k : Int) (rnd : List (Nat × Nat)), k ≤ 0 → generate_blocked g k rnd = g) ∧
    (∀ (g : Grid) (k : Int) (rnd : List (Nat × Nat)),
      g.rows * g.cols - (countBlocked g : Int) ≤ 0 → generate_blocked g k rnd = g) := by
  constructor
  · intro g k rnd h0
    rw [generate_blocked, if_pos h0]
  · intro g k rnd hA
    rw [generate_blocked]
    by_cases h0 : k ≤ 0
    · rw [if_pos h0]
    · rw [if_neg h0, if_pos hA]
